import Mathlib

/-!
Verification of the declaration-extraction and emission engine of dump.py
(cuda_wrapper_maker).  Python values are shallowly embedded: dictionaries
become association lists in which the most recent binding of a key wins,
strings are Lean strings handled characterwise, the unbounded while loops
carry an explicit fuel argument and return none when the fuel runs out, and
operations that can raise (indexing an empty string, a failed assertion)
return Option.
-/

/-- A Python dict from type names to type names, as an association list.
`pyInsert` prepends, so the most recent binding of a key is the first
matching entry, mirroring dict assignment where the latest write wins. -/
abbrev TypeMap := List (String × String)

/-- The names bound in the map: a name is a key iff some entry carries it as
first component (Python `k in d`). -/
def keysOf (m : TypeMap) : List String := m.map Prod.fst

/-- Python `d[k]`: the value of the most recent binding of `s`, or none when
`s` is not a key. -/
def lookup (m : TypeMap) (s : String) : Option String :=
  (m.find? (fun p => p.1 == s)).map Prod.snd

/-- Python dict assignment `d[k] = v`. -/
def pyInsert (m : TypeMap) (k v : String) : TypeMap := (k, v) :: m

/-- `n` steps of the alias-chasing loop of canonical_type (dump.py 204-207)
and HeaderVisitor.canonical (dump.py 119-125): while the name is a key,
replace it by its binding.  A name that is not a key stays put. -/
def stepN (m : TypeMap) : Nat → String → String
  | 0, s => s
  | n + 1, s =>
    match lookup m s with
    | some v => stepN m n v
    | none => s

/-- canonical_type (dump.py 204-207) with explicit fuel: `while tp in
typemap: tp = typemap[tp]`.  Returns the resolved name together with the
number of lookups performed, or none when the loop is still running after
`fuel` iterations.  HeaderVisitor.canonical (dump.py 119-125) is the same
loop, with the list comprehension over typedefs acting as first-match
lookup. -/
def canonFuel (m : TypeMap) : Nat → String → Option (String × Nat)
  | 0, s =>
    match lookup m s with
    | some _ => none
    | none => some (s, 0)
  | fuel + 1, s =>
    match lookup m s with
    | some v => (canonFuel m fuel v).map (fun p => (p.1, p.2 + 1))
    | none => some (s, 0)

/-- The type map has no alias cycle: no key returns to itself within
`m.length` hops.  By the pigeonhole principle, any cycle at all would show
up within that bound, so this is equivalent to full acyclicity. -/
def NoCycleB (m : TypeMap) : Prop :=
  ∀ t ∈ keysOf m, ∀ k < m.length, stepN m (k + 1) t ≠ t

instance (m : TypeMap) : Decidable (NoCycleB m) := by
  unfold NoCycleB; infer_instance

/-- The record lists built by the dump_ast path of dump.py.  A typedef entry
is [decl, tgt, enumname] (typedef_decl, dump.py 147-154); an enum entry is
[decl, tp, members] (enum_decl, dump.py 158-167); a function entry is
[decl, tp, body] where tp is the canonical spelling of the first child
cursor or None, and body is the function's display name
(function_decl, dump.py 170-177). -/
structure Decls where
  typedef : List (String × String × Option String)
  enum : List (String × String × List (String × Int))
  function : List (String × Option String × String)

/-- The value a typedef entry contributes to the type map (dump.py 183-187):
the recorded enum name when present, otherwise the canonical target
spelling. -/
def tdTarget (t : String × String × Option String) : String :=
  match t.2.2 with
  | some en => en
  | none => t.2.1

/-- make_typemap (dump.py 180-192): one binding per typedef, then one per
enum; an enum binding overrides a typedef of the same name because the later
dict assignment wins. -/
def make_typemap (decls : Decls) : TypeMap :=
  decls.enum.foldl (fun m e => pyInsert m e.1 e.2.1)
    (decls.typedef.foldl (fun m t => pyInsert m t.1 (tdTarget t)) [])

/-- make_enums (dump.py 195-201): the members of all captured enums,
flattened in declaration order. -/
def make_enums (decls : Decls) : List (String × Int) :=
  (decls.enum.map (fun e => e.2.2)).flatten

/-- Python str.lower, characterwise (ASCII case mapping). -/
def pyLower (s : String) : String := String.mk (s.data.map Char.toLower)

/-- Python str.upper, characterwise (ASCII case mapping). -/
def pyUpper (s : String) : String := String.mk (s.data.map Char.toUpper)

/-- Worker for Python s.replace(pat, "") with nonempty pat: scan left to
right, delete each non-overlapping occurrence of pat.  The fuel is the
remaining input length, consumed at least one character per step. -/
def stripAllGo (pat : List Char) : Nat → List Char → List Char
  | _, [] => []
  | 0, s => s
  | fuel + 1, c :: rest =>
    if pat.isPrefixOf (c :: rest) then
      stripAllGo pat fuel (List.drop (pat.length - 1) rest)
    else
      c :: stripAllGo pat fuel rest

/-- Python s.replace(pat, ""): delete every occurrence of pat, scanning left
to right.  With the empty pattern and empty replacement Python returns s
unchanged. -/
def pyReplace (s pat : String) : String :=
  match pat.data with
  | [] => s
  | _ :: _ => String.mk (stripAllGo pat.data s.data.length s.data)

/-- One emitted enumeration entry (dump.py 291-293): the member name with
every occurrence of the upper-cased library token plus underscore removed,
an equals sign, and the raw value.  The four-space block indentation of the
print statement is layout and not modelled. -/
def enumLine (lib : String) (mem : String × Int) : String :=
  pyReplace mem.1 (pyUpper lib ++ "_") ++ " = " ++ toString mem.2

/-- The enumeration output block (dump.py 290-293): one line per captured
member, in order. -/
def enumBlock (lib : String) (decls : Decls) : List String :=
  (make_enums decls).map (enumLine lib)

/-- Python s.replace(old, new, 1) for one-character old and new: rewrite the
first occurrence of old, keep everything else. -/
def replace1 (old new : Char) : List Char → List Char
  | [] => []
  | c :: rest => if c = old then new :: rest else c :: replace1 old new rest

/-- How Python str.format renders the canonicalized return type: None prints
as the string None. -/
def pyStr : Option String → String
  | none => "None"
  | some s => s

/-- First character lowered, rest untouched: the structural reading of
body.replace(body[0], body[0].lower(), 1), since the first occurrence of the
first character is at position zero. -/
def lowerFirstL : List Char → List Char
  | [] => []
  | c :: rest => c.toLower :: rest

/-- String version of lowerFirstL. -/
def lowerFirst (s : String) : String := String.mk (lowerFirstL s.data)

/-- One function-block line (dump.py 295-298) for a record (tp, body):
body = body.replace(lib, ""); body = body.replace(body[0], body[0].lower(), 1);
emit cpdef tp body.  Indexing body[0] raises IndexError on the empty string,
modelled as none. -/
def funLine (lib : String) (f : Option String × String) : Option String :=
  match (pyReplace f.2 lib).data with
  | [] => none
  | c :: rest =>
    some ("cpdef " ++ pyStr f.1 ++ " " ++ String.mk (replace1 c c.toLower (c :: rest)))

/-- Run an Option-valued function over a list, failing as a whole as soon as
one element fails (the Python loop raises and aborts the run). -/
def mapOpt (f : α → Option β) : List α → Option (List β)
  | [] => some []
  | x :: xs =>
    match f x, mapOpt f xs with
    | some y, some ys => some (y :: ys)
    | _, _ => none

/-- The function output block (dump.py 295-298), one line per record. -/
def funBlock (lib : String) (fs : List (Option String × String)) : Option (List String) :=
  mapOpt (funLine lib) fs

/-- make_functions (dump.py 210-218): canonicalize each recorded return type
through the type map; a None return type stays None because None is never a
dict key.  The fuel bounds the canonicalization loop. -/
def make_functions (fuel : Nat) (decls : Decls) (typemap : TypeMap) :
    Option (List (Option String × String)) :=
  mapOpt (fun g =>
    match g.2.1 with
    | none => some ((none : Option String), g.2.2)
    | some s => (canonFuel typemap fuel s).map (fun p => ((some p.1 : Option String), g.2.2)))
    decls.function

/-- A cursor type as exposed by the front end at the boundary the resolver
uses: a primitive with its kind spelling, a pointer with its pointee, an
enum with its own spelling, or a typedef with its declared name. -/
inductive CType where
  | prim (kindName : String)
  | pointer (pointee : CType)
  | enumT (sp : String)
  | typedefT (tname : String)

/-- tp.kind.spelling of the front end: primitives report their own kind
spelling, the three structured kinds report their tag. -/
def kindSp : CType → String
  | .prim s => s
  | .pointer _ => "Pointer"
  | .enumT _ => "Enum"
  | .typedefT _ => "Typedef"

/-- tp.spelling of the front end; the resolver reads it only on the enum
branch, where it is the enum's display name. -/
def ctSpelling : CType → String
  | .prim s => s
  | .pointer p => ctSpelling p ++ " *"
  | .enumT s => s
  | .typedefT n => n

/-- tp.get_pointee of the front end, total on the model (identity off
pointers, where the code never calls it). -/
def pointeeOf : CType → CType
  | .pointer p => p
  | t => t

/-- tp.get_typedef_name of the front end, empty off typedef nodes. -/
def tdName : CType → String
  | .typedefT n => n
  | _ => ""

/-- The sentinel spellings driving the unwrap loop (dump.py 64). -/
def extraTags : List String := ["pointer", "enum", "typedef"]

/-- The parameter unwrap loop of FunctionDecl (dump.py 64-75): while the
lowered kind spelling is a sentinel, take the enum's spelling, or step to
the pointee counting one star, or take the typedef's declared name.  Fuel
bounds the loop; none means it was still running. -/
def resolveLoop : Nat → String → CType → Nat → Option (String × Nat)
  | 0, dtype, _, cnt =>
    if dtype ∈ extraTags then none else some (dtype, cnt)
  | fuel + 1, dtype, tp, cnt =>
    if dtype ∈ extraTags then
      if dtype = "enum" then
        resolveLoop fuel (ctSpelling tp) tp cnt
      else if dtype = "pointer" then
        resolveLoop fuel (pyLower (kindSp (pointeeOf tp))) (pointeeOf tp) (cnt + 1)
      else
        resolveLoop fuel (tdName tp) tp cnt
    else
      some (dtype, cnt)

/-- One parameter descriptor (dump.py 62-79): run the unwrap loop on the
parameter's canonical type, assert the base type nonempty, and pair
base + one star per pointer level with the display name. -/
def resolveArg (fuel : Nat) (tp : CType) (dispName : String) : Option (String × String) :=
  match resolveLoop fuel (pyLower (kindSp tp)) tp 0 with
  | none => none
  | some (dtype, cnt) =>
    if dtype = "" then none
    else some (dtype ++ String.mk (List.replicate cnt '*'), dispName)

/-- The base type the unwrap loop should reach, read structurally: through
pointers, a primitive's lowered kind spelling, an enum's spelling, a
typedef's declared name. -/
def chainBase : CType → String
  | .prim s => pyLower s
  | .pointer p => chainBase p
  | .enumT s => s
  | .typedefT n => n

/-- Number of pointer layers before the base type. -/
def ptrDepth : CType → Nat
  | .pointer p => ptrDepth p + 1
  | _ => 0

/-- A typedef record of the HeaderVisitor path (dump.py 82-89). -/
structure TypedefD where
  name : String
  tdAlias : String
deriving DecidableEq

/-- An enum record of the HeaderVisitor path (dump.py 42-51). -/
structure EnumD where
  name : String
  dtype : String
  members : List (String × Int)
deriving DecidableEq

/-- A function record of the HeaderVisitor path (dump.py 54-79). -/
structure FunctionD where
  name : String
  dtype : String
  args : List (String × String)
deriving DecidableEq

/-- The three declaration lists held by HeaderVisitor (dump.py 92-97). -/
structure HeaderV where
  enums : List EnumD
  functions : List FunctionD
  typedefs : List TypedefD
deriving DecidableEq

/-- HeaderVisitor.filter (dump.py 114-117): keep, in each of the three
lists independently, the records whose name satisfies the predicate; the
predicate reads only the name attribute, as the one call site does. -/
def filterHV (h : HeaderV) (cond : String → Bool) : HeaderV :=
  ⟨h.enums.filter (fun e => cond e.name),
   h.functions.filter (fun f => cond f.name),
   h.typedefs.filter (fun t => cond t.name)⟩

/-- Python t.isPrefixOf-style startswith: s.startswith(t). -/
def pyStarts (s t : String) : Bool := t.data.isPrefixOf s.data

/-- The condition main actually passes to filter (dump.py 247):
obj.name.lower().startswith with the fixed token cufft. -/
def mainCond (name : String) : Bool := pyStarts (pyLower name) "cufft"

/-- Substring containment, as the specification words it: some suffix of s
has t as a prefix. -/
def strContains (s t : String) : Bool :=
  (List.range (s.data.length + 1)).any (fun i => t.data.isPrefixOf (s.data.drop i))

/-- Modelled from the spec: strip one leading occurrence of a prefix from a
name, leaving the name unchanged when the prefix is not leading.  Used to
state what the specification asserts about enum member emission. -/
def specStripLeading (name pre : String) : String :=
  if pre.data.isPrefixOf name.data then String.mk (name.data.drop pre.data.length)
  else name

/-- What main does before any parsing (dump.py 228-233): with fewer than two
positional arguments print the usage line and stop; otherwise carry on with
the library token argv[1] and the header path argv[2]. -/
inductive MainAction where
  | usage (msg : String)
  | proceed (lib header : String)
deriving DecidableEq

/-- argv[0], the program name, with a default for the impossible empty argv. -/
def argvHead (argv : List String) : String := argv.headD ""

/-- The argument check of main (dump.py 229-233): len(sys.argv) < 3 prints
usage and exits before any parsing, extraction or emission; otherwise the
run proceeds with lib = argv[1] and header = argv[2]. -/
def mainDispatch (argv : List String) : MainAction :=
  if argv.length < 3 then
    MainAction.usage ("usage: " ++ argvHead argv ++ " LIBNAME HEADER")
  else
    MainAction.proceed (argv.getD 1 "") (argv.getD 2 "")

/-! ### Basic facts about the embedded dict and the alias-chasing loop -/

/-- Looking up after a dict assignment: the assigned key reads back the new
value, every other key is unchanged. -/
theorem lookup_pyInsert (m : TypeMap) (k v x : String) :
    lookup (pyInsert m k v) x = if x = k then some v else lookup m x := by
  by_cases h : x = k
  · subst h
    simp [lookup, pyInsert, List.find?_cons]
  · have hk : (k == x) = false := beq_eq_false_iff_ne.mpr (fun hh => h hh.symm)
    simp [lookup, pyInsert, List.find?_cons, h, hk]

/-- A lookup fails exactly when the name is not a key. -/
theorem lookup_eq_none_iff (m : TypeMap) (s : String) :
    lookup m s = none ↔ s ∉ keysOf m := by
  unfold lookup keysOf
  rw [Option.map_eq_none', List.find?_eq_none]
  simp
  constructor
  · intro h x hx
    exact h s x hx rfl
  · intro h a b hab ha
    subst ha
    exact h b hab

/-- A name that is not a key is left where it is by any number of steps. -/
theorem stepN_stall (m : TypeMap) (s : String) (h : lookup m s = none) :
    ∀ n, stepN m n s = s
  | 0 => rfl
  | n + 1 => by simp [stepN, h]

/-- Step counts compose. -/
theorem stepN_add (m : TypeMap) (a b : Nat) (s : String) :
    stepN m (a + b) s = stepN m b (stepN m a s) := by
  induction a generalizing s with
  | zero => simp [stepN]
  | succ a ih =>
    have hab : a + 1 + b = (a + b) + 1 := by omega
    rw [hab]
    cases h : lookup m s with
    | some v => simp [stepN, h, ih]
    | none => simp [stepN, h, stepN_stall m s h]

/-- Once the walk has left the keys it never re-enters them. -/
theorem exit_persists (m : TypeMap) (s : String) (i n : Nat) (hin : i ≤ n)
    (h : lookup m (stepN m i s) = none) : lookup m (stepN m n s) = none := by
  obtain ⟨k, rfl⟩ := Nat.le.dest hin
  rw [stepN_add m i k s, stepN_stall m (stepN m i s) h k]
  exact h

/-- On a non-key the loop exits at once, whatever the fuel. -/
theorem canonFuel_none_lookup (m : TypeMap) (s : String) (h : lookup m s = none) :
    ∀ fuel, canonFuel m fuel s = some (s, 0)
  | 0 => by simp [canonFuel, h]
  | fuel + 1 => by simp [canonFuel, h]

/-- When the walk leaves the keys within the fuel, canonFuel returns the
first non-key element of the chain together with its index, and every
earlier element of the chain is a key. -/
theorem canonFuel_exit (m : TypeMap) :
    ∀ (n : Nat) (s : String), lookup m (stepN m n s) = none →
      ∃ h, h ≤ n ∧ canonFuel m n s = some (stepN m h s, h) ∧
        lookup m (stepN m h s) = none ∧
        ∀ i, i < h → lookup m (stepN m i s) ≠ none := by
  intro n
  induction n with
  | zero =>
    intro s hs
    simp only [stepN] at hs
    exact ⟨0, Nat.le_refl 0, by simp [canonFuel, hs, stepN], by simpa [stepN] using hs,
      fun i hi => absurd hi (Nat.not_lt_zero i)⟩
  | succ n ih =>
    intro s hs
    cases hl : lookup m s with
    | none =>
      exact ⟨0, Nat.zero_le _, by simp [canonFuel, hl, stepN], by simpa [stepN] using hl,
        fun i hi => absurd hi (Nat.not_lt_zero i)⟩
    | some v =>
      have hs' : lookup m (stepN m n v) = none := by
        simpa [stepN, hl] using hs
      obtain ⟨h0, hle, hcf, hnone, hmin⟩ := ih v hs'
      refine ⟨h0 + 1, Nat.succ_le_succ hle, ?_, ?_, ?_⟩
      · simp [canonFuel, hl, hcf, stepN]
      · simpa [stepN, hl] using hnone
      · intro i hi
        cases i with
        | zero => simp [stepN, hl]
        | succ j =>
          have : lookup m (stepN m j v) ≠ none := hmin j (by omega)
          simpa [stepN, hl] using this

/-- A successful canonicalization stays successful with more fuel. -/
theorem canonFuel_mono (m : TypeMap) :
    ∀ (n : Nat) (s : String) (p : String × Nat), canonFuel m n s = some p →
      ∀ F, n ≤ F → canonFuel m F s = some p := by
  intro n
  induction n with
  | zero =>
    intro s p hp F _
    cases hl : lookup m s with
    | some v => simp [canonFuel, hl] at hp
    | none =>
      have : p = (s, 0) := by simpa [canonFuel, hl] using hp.symm
      subst this
      exact canonFuel_none_lookup m s hl F
  | succ n ih =>
    intro s p hp F hF
    cases hl : lookup m s with
    | none =>
      have : p = (s, 0) := by simpa [canonFuel, hl] using hp.symm
      subst this
      exact canonFuel_none_lookup m s hl F
    | some v =>
      simp only [canonFuel, hl, Option.map_eq_some'] at hp
      obtain ⟨q, hq, hqp⟩ := hp
      obtain ⟨F', rfl⟩ : ∃ F', F = F' + 1 := ⟨F - 1, by omega⟩
      have hF' : n ≤ F' := by omega
      simp [canonFuel, hl, ih v q hq F' hF', ← hqp]

/-- Pigeonhole: when the map has no cycle among its keys, every chain leaves
the keys within m.length steps. -/
theorem exists_exit (m : TypeMap) (hnc : NoCycleB m) (s : String) :
    ∃ n, n ≤ m.length ∧ lookup m (stepN m n s) = none := by
  by_contra hcon
  push_neg at hcon
  have hmem : ∀ n, n ≤ m.length → stepN m n s ∈ keysOf m := by
    intro n hn
    by_contra hk
    exact hcon n hn ((lookup_eq_none_iff m _).mpr hk)
  have key : ∀ i j, i < j → j ≤ m.length → stepN m i s = stepN m j s → False := by
    intro i j hij hj heq
    have ht : stepN m i s ∈ keysOf m := hmem i (by omega)
    have hsplit : stepN m (i + (j - i)) s = stepN m (j - i) (stepN m i s) :=
      stepN_add m i (j - i) s
    have hj' : i + (j - i) = j := by omega
    rw [hj'] at hsplit
    have hcyc : stepN m ((j - i - 1) + 1) (stepN m i s) = stepN m i s := by
      have : j - i - 1 + 1 = j - i := by omega
      rw [this, ← hsplit, ← heq]
    exact hnc (stepN m i s) ht (j - i - 1) (by omega) hcyc
  have hcard : (keysOf m).toFinset.card < (Finset.range (m.length + 1)).card := by
    have h1 : (keysOf m).toFinset.card ≤ (keysOf m).length := List.toFinset_card_le _
    have h2 : (keysOf m).length = m.length := by simp [keysOf]
    rw [Finset.card_range]
    omega
  obtain ⟨i, hi, j, hj, hne, heq⟩ :=
    Finset.exists_ne_map_eq_of_card_lt_of_maps_to hcard
      (fun a ha => List.mem_toFinset.mpr (hmem a (by
        have := Finset.mem_range.mp ha
        omega)))
  have hi' : i ≤ m.length := by have := Finset.mem_range.mp hi; omega
  have hj' : j ≤ m.length := by have := Finset.mem_range.mp hj; omega
  rcases Nat.lt_or_ge i j with hlt | hge
  · exact key i j hlt hj' heq
  · have hlt : j < i := by omega
    exact key j i hlt hi' heq.symm

/-- C1: for every type map whose alias chains contain no cycle, the
canonicalization loop of canonical_type (dump.py 204-207) and
HeaderVisitor.canonical (dump.py 119-125) terminates within m.length + 1
lookups and returns a name that is not a key of the map (a true fixed
point); the hop count it performs is exactly the length of the alias chain
from the input: every chain element before the result is a key, the result
is not. -/
theorem canonical_acyclic_fixed_point (m : TypeMap) (s : String) (hnc : NoCycleB m) :
    ∃ r hops, canonFuel m (m.length + 1) s = some (r, hops) ∧
      lookup m r = none ∧ r = stepN m hops s ∧
      ∀ i, i < hops → lookup m (stepN m i s) ≠ none := by
  obtain ⟨n, hn, hnone⟩ := exists_exit m hnc s
  obtain ⟨h0, hle, hcf, hnone0, hmin⟩ := canonFuel_exit m n s hnone
  exact ⟨stepN m h0 s, h0,
    canonFuel_mono m n s _ hcf (m.length + 1) (by omega), hnone0, rfl, hmin⟩

/-- Witness for C1 at the concrete acyclic chain a -> b -> int. -/
theorem canonical_acyclic_fixed_point_wit :
    ∃ r hops, canonFuel [("a", "b"), ("b", "int")] 3 "a" = some (r, hops) ∧
      lookup [("a", "b"), ("b", "int")] r = none ∧
      r = stepN [("a", "b"), ("b", "int")] hops "a" ∧
      ∀ i, i < hops →
        lookup [("a", "b"), ("b", "int")] (stepN [("a", "b"), ("b", "int")] i "a") ≠ none :=
  canonical_acyclic_fixed_point [("a", "b"), ("b", "int")] "a" (by decide)

/-- C6: the canonicalization loop is total on acyclic maps (it succeeds with
fuel m.length + 1 on every start name), and on the cyclic map A -> B -> A it
never terminates: no amount of fuel makes it return. -/
theorem canonical_termination_dichotomy :
    (∀ m : TypeMap, NoCycleB m → ∀ s, ∃ p, canonFuel m (m.length + 1) s = some p)
    ∧ ∀ fuel, canonFuel [("A", "B"), ("B", "A")] fuel "A" = none := by
  constructor
  · intro m hnc s
    obtain ⟨n, hn, hnone⟩ := exists_exit m hnc s
    obtain ⟨h0, _, hcf, _, _⟩ := canonFuel_exit m n s hnone
    exact ⟨_, canonFuel_mono m n s _ hcf (m.length + 1) (by omega)⟩
  · have key : ∀ fuel, canonFuel [("A", "B"), ("B", "A")] fuel "A" = none ∧
        canonFuel [("A", "B"), ("B", "A")] fuel "B" = none := by
      intro fuel
      induction fuel with
      | zero => exact ⟨rfl, rfl⟩
      | succ n ih =>
        have hA : lookup [("A", "B"), ("B", "A")] "A" = some "B" := rfl
        have hB : lookup [("A", "B"), ("B", "A")] "B" = some "A" := rfl
        exact ⟨by simp [canonFuel, hA, ih.2], by simp [canonFuel, hB, ih.1]⟩
    exact fun fuel => (key fuel).1

/-- Witness for the acyclic half of C6 on the one-hop map t -> int. -/
theorem canonical_termination_dichotomy_wit :
    ∃ p, canonFuel [("t", "int")] 2 "t" = some p :=
  canonical_termination_dichotomy.1 [("t", "int")] (by decide) "t"

/-! ### The type map built by make_typemap -/

/-- A key never assigned by the fold reads the base map. -/
theorem lookup_foldl_not_mem {α : Type} (kf vf : α → String) :
    ∀ (l : List α) (m0 : TypeMap) (x : String), x ∉ l.map kf →
      lookup (l.foldl (fun m r => pyInsert m (kf r) (vf r)) m0) x = lookup m0 x := by
  intro l
  induction l with
  | nil =>
    intro m0 x _
    rfl
  | cons r rest ih =>
    intro m0 x hx
    simp only [List.map_cons, List.mem_cons, not_or] at hx
    rw [List.foldl_cons, ih _ x hx.2, lookup_pyInsert, if_neg hx.1]

/-- With pairwise distinct keys, each record's key reads back its value. -/
theorem lookup_foldl_mem {α : Type} (kf vf : α → String) :
    ∀ (l : List α) (m0 : TypeMap) (r : α), (l.map kf).Nodup → r ∈ l →
      lookup (l.foldl (fun m a => pyInsert m (kf a) (vf a)) m0) (kf r) = some (vf r) := by
  intro l
  induction l with
  | nil =>
    intro _ r _ h
    cases h
  | cons a rest ih =>
    intro m0 r hnd hr
    simp only [List.map_cons, List.nodup_cons] at hnd
    rw [List.foldl_cons]
    rcases List.mem_cons.mp hr with heq | hmem
    · subst heq
      rw [lookup_foldl_not_mem kf vf rest _ _ hnd.1, lookup_pyInsert, if_pos rfl]
    · exact ih _ r hnd.2 hmem

/-- C9: make_typemap (dump.py 180-192) binds every captured enum's name to
its lower-cased underlying primitive spelling, and every typedef name to its
one-hop target (the aliased enum's name when the typedef aliases an enum);
consequently, when the alias chain from a name reaches a captured enum whose
underlying spelling is not itself a key, canonical_type resolves the name to
that underlying spelling in one hop more, and never to the enum's own name.
The hypotheses record that names are unambiguous, as in a well-formed
translation unit: enum names pairwise distinct, typedef names pairwise
distinct, no typedef named like an enum. -/
theorem typemap_enum_resolution (decls : Decls)
    (hE : (decls.enum.map (fun e => e.1)).Nodup)
    (hT : (decls.typedef.map (fun t => t.1)).Nodup)
    (hdisj : ∀ t ∈ decls.typedef, t.1 ∉ decls.enum.map (fun e => e.1)) :
    (∀ e ∈ decls.enum, lookup (make_typemap decls) e.1 = some e.2.1)
    ∧ (∀ t ∈ decls.typedef, lookup (make_typemap decls) t.1 = some (tdTarget t))
    ∧ ∀ e ∈ decls.enum, ∀ name n,
        stepN (make_typemap decls) n name = e.1 →
        lookup (make_typemap decls) e.2.1 = none →
        canonFuel (make_typemap decls) (n + 1) name = some (e.2.1, n + 1) ∧ e.2.1 ≠ e.1 := by
  have henum : ∀ e ∈ decls.enum, lookup (make_typemap decls) e.1 = some e.2.1 := by
    intro e he
    unfold make_typemap
    exact lookup_foldl_mem (fun a => a.1) (fun a => a.2.1) decls.enum _ e hE he
  refine ⟨henum, ?_, ?_⟩
  · intro t ht
    unfold make_typemap
    rw [lookup_foldl_not_mem (fun a => a.1) (fun a => a.2.1) decls.enum _ _ (hdisj t ht)]
    exact lookup_foldl_mem (fun a => a.1) tdTarget decls.typedef _ t hT ht
  · intro e he name n hchain hterm
    have h1e : lookup (make_typemap decls) e.1 = some e.2.1 := henum e he
    have hne : e.2.1 ≠ e.1 := by
      intro h
      rw [h, h1e] at hterm
      cases hterm
    have hstep : stepN (make_typemap decls) (n + 1) name = e.2.1 := by
      rw [stepN_add (make_typemap decls) n 1 name, hchain]
      simp [stepN, h1e]
    have hexit : lookup (make_typemap decls) (stepN (make_typemap decls) (n + 1) name) = none := by
      rw [hstep]
      exact hterm
    obtain ⟨h0, hle, hcf, hnone0, _⟩ := canonFuel_exit (make_typemap decls) (n + 1) name hexit
    have hh0 : h0 = n + 1 := by
      by_contra hne0
      have h0le : h0 ≤ n := by omega
      have := exit_persists (make_typemap decls) name h0 n h0le hnone0
      rw [hchain, h1e] at this
      cases this
    subst hh0
    rw [hstep] at hcf
    exact ⟨hcf, hne⟩

/-- Witness for C9 on one typedef aliasing one enum over int. -/
theorem typemap_enum_resolution_wit :
    canonFuel (make_typemap ⟨[("T", "enum", some "E")], [("E", "int", [("A", 1)])], []⟩) 2 "T"
      = some ("int", 2) ∧ ("int" : String) ≠ "E" :=
  (typemap_enum_resolution ⟨[("T", "enum", some "E")], [("E", "int", [("A", 1)])], []⟩
      (by decide) (by decide) (by decide)).2.2 ("E", "int", [("A", 1)]) (by decide) "T" 1
      (by decide) (by decide)

/-! ### Filtering -/

/-- C2 (amended): the filter applied in main (dump.py 247 via
HeaderVisitor.filter, 114-117) retains, in each of the three lists
independently, exactly the declarations whose lower-cased name starts with
the fixed token cufft - not those merely containing the library_name
argument - and preserves the relative order of the retained elements (each
filtered list is a sublist of the original). -/
theorem filter_main_exact (h : HeaderV) :
    (List.Sublist (filterHV h mainCond).typedefs h.typedefs ∧
      ∀ t, t ∈ (filterHV h mainCond).typedefs ↔
        t ∈ h.typedefs ∧ pyStarts (pyLower t.name) "cufft" = true)
    ∧ (List.Sublist (filterHV h mainCond).enums h.enums ∧
      ∀ e, e ∈ (filterHV h mainCond).enums ↔
        e ∈ h.enums ∧ pyStarts (pyLower e.name) "cufft" = true)
    ∧ (List.Sublist (filterHV h mainCond).functions h.functions ∧
      ∀ f, f ∈ (filterHV h mainCond).functions ↔
        f ∈ h.functions ∧ pyStarts (pyLower f.name) "cufft" = true) := by
  refine ⟨⟨List.filter_sublist _, ?_⟩, ⟨List.filter_sublist _, ?_⟩,
    ⟨List.filter_sublist _, ?_⟩⟩ <;>
      intro x <;> simp [filterHV, List.mem_filter, mainCond]

/-- Counterexample to C2 as stated: the typedef named xcufftPlan contains
the case-folded token cufft as a substring, so the claim retains it, but the
code's startswith test drops it. -/
theorem filter_contains_cex :
    (filterHV ⟨[], [], [⟨"xcufftPlan", "int"⟩]⟩ mainCond).typedefs = [] ∧
      strContains (pyLower "xcufftPlan") (pyLower "cufft") = true := by
  exact ⟨rfl, rfl⟩

/-- C7: filtering is idempotent: running HeaderVisitor.filter
(dump.py 114-117) twice with the same predicate returns the state the first
run produced, whatever the predicate and the declaration set. -/
theorem filter_idempotent (cond : String → Bool) (h : HeaderV) :
    filterHV (filterHV h cond) cond = filterHV h cond := by
  simp [filterHV, List.filter_filter]

/-! ### The enumeration block -/

/-- C3 (amended): every captured enum member is emitted as NAME = VALUE
where NAME removes every occurrence of the upper-cased library token
followed by an underscore from the member's original name (str.replace, not
only a leading occurrence) and the value is kept verbatim; on the example
enum [(LIB_OK, 0), (LIB_FAIL, 1)] with token LIB the block is exactly
OK = 0 then FAIL = 1, in declaration order. -/
theorem enum_block_emission :
    (∀ (lib : String) (decls : Decls) (e : String × String × List (String × Int))
        (mem : String × Int), e ∈ decls.enum → mem ∈ e.2.2 →
        (pyReplace mem.1 (pyUpper lib ++ "_") ++ " = " ++ toString mem.2)
          ∈ enumBlock lib decls)
    ∧ enumBlock "LIB" ⟨[], [("", "int", [("LIB_OK", 0), ("LIB_FAIL", 1)])], []⟩
        = ["OK = 0", "FAIL = 1"] := by
  constructor
  · intro lib decls e mem he hm
    unfold enumBlock make_enums
    exact List.mem_map_of_mem (enumLine lib)
      (List.mem_flatten.mpr ⟨e.2.2, List.mem_map_of_mem _ he, hm⟩)
  · decide

/-- Witness for C3 at the member LIB_OK = 0 of a captured enum. -/
theorem enum_block_emission_wit :
    ("OK = 0" : String) ∈ enumBlock "LIB" ⟨[], [("", "int", [("LIB_OK", 0)])], []⟩ :=
  enum_block_emission.1 "LIB" ⟨[], [("", "int", [("LIB_OK", 0)])], []⟩
    ("", "int", [("LIB_OK", 0)]) ("LIB_OK", 0) (by decide) (by decide)

/-- Counterexample to C3 as stated: the member A_LIB_B has no leading LIB_
prefix, so the claimed leading-prefix strip leaves it unchanged, but the
code's replace removes the inner occurrence and emits A_B = 7. -/
theorem enum_prefix_strip_cex :
    enumLine "LIB" ("A_LIB_B", 7) = "A_B = 7" ∧
      specStripLeading "A_LIB_B" "LIB_" = "A_LIB_B" ∧
      ("A_B = 7" : String) ≠ "A_LIB_B = 7" := by
  decide

/-! ### The function block -/

/-- When the stripped display name is nonempty, the emitted line is the
canonicalized return type followed by the stripped display name with its
first character lowered: replacing the first occurrence of the first
character is exactly a first-character lowering. -/
theorem funLine_of_ne (lib : String) (f : Option String × String)
    (h : pyReplace f.2 lib ≠ "") :
    funLine lib f = some ("cpdef " ++ pyStr f.1 ++ " " ++ lowerFirst (pyReplace f.2 lib)) := by
  unfold funLine
  cases hd : (pyReplace f.2 lib).data with
  | nil =>
    exact absurd (String.ext hd) h
  | cons c rest =>
    simp [hd, lowerFirst, lowerFirstL, replace1]

/-- When every element succeeds, mapOpt is the plain map of the successes. -/
theorem mapOpt_eq_map {α β : Type} (f : α → Option β) (g : α → β) :
    ∀ l : List α, (∀ x ∈ l, f x = some (g x)) → mapOpt f l = some (l.map g) := by
  intro l
  induction l with
  | nil =>
    intro _
    rfl
  | cons x xs ih =>
    intro hall
    have hx := hall x (List.mem_cons_self x xs)
    have hxs := ih (fun y hy => hall y (List.mem_cons_of_mem x hy))
    simp [mapOpt, hx, hxs]

/-- Success of mapOpt maps element successes into the result list. -/
theorem mapOpt_mem {α β : Type} (f : α → Option β) :
    ∀ (l : List α) (ys : List β), mapOpt f l = some ys →
      ∀ x ∈ l, ∀ y, f x = some y → y ∈ ys := by
  intro l
  induction l with
  | nil =>
    intro ys _ x hx
    cases hx
  | cons a as ih =>
    intro ys h x hx y hy
    cases hfa : f a with
    | none => simp [mapOpt, hfa] at h
    | some b =>
      cases hrec : mapOpt f as with
      | none => simp [mapOpt, hfa, hrec] at h
      | some bs =>
        simp only [mapOpt, hfa, hrec] at h
        injection h with h'
        subst h'
        rcases List.mem_cons.mp hx with rfl | hxs
        · rw [hfa] at hy
          injection hy with hy'
          subst hy'
          exact List.mem_cons_self b bs
        · exact List.mem_cons_of_mem b (ih bs hrec x hxs y hy)

/-- C4 (amended): for every run of the function block (dump.py 294-298),
each emitted line is cpdef, the recorded return type resolved through the
canonicalizer (make_functions, dump.py 210-218), and the function's recorded
display name - which carries its own parameter text, not descriptors from
the parameter resolver - with the library token removed wherever it occurs
and the first character of the result lowered; in the round-trip example the
function libx_get is emitted with name _get, the leading underscore kept. -/
theorem fun_block_emission :
    (∀ (lib : String) (fs : List (Option String × String)),
        (∀ f ∈ fs, pyReplace f.2 lib ≠ "") →
        funBlock lib fs =
          some (fs.map (fun f => "cpdef " ++ pyStr f.1 ++ " " ++ lowerFirst (pyReplace f.2 lib))))
    ∧ (∀ (fuel : Nat) (decls : Decls) (tm : TypeMap) (fs : List (Option String × String)),
        make_functions fuel decls tm = some fs →
        ∀ g ∈ decls.function, ∀ s r hp, g.2.1 = some s → canonFuel tm fuel s = some (r, hp) →
          ((some r : Option String), g.2.2) ∈ fs)
    ∧ funLine "libx" ((some "int" : Option String), "libx_get()") = some "cpdef int _get()" := by
  refine ⟨?_, ?_, by decide⟩
  · intro lib fs hall
    exact mapOpt_eq_map (funLine lib) _ fs (fun f hf => funLine_of_ne lib f (hall f hf))
  · intro fuel decls tm fs hmk g hg s r hp hgs hc
    refine mapOpt_mem _ decls.function fs hmk g hg _ ?_
    simp [hgs, hc]

/-- Witness for C4 on a one-element run. -/
theorem fun_block_emission_wit :
    funBlock "lib" [((some "int" : Option String), "libFoo()")] = some ["cpdef int foo()"] := by
  have h := fun_block_emission.1 "lib" [((some "int" : Option String), "libFoo()")] (by decide)
  exact h.trans (by decide)

/-- Counterexample to C4 as stated: for the function libx_get filtered by
libx the code emits the name _get, not get: removing the token from
libx_get leaves _get, and lowering the first character keeps the
underscore. -/
theorem fun_name_get_cex :
    funLine "libx" ((some "int" : Option String), "libx_get()") = some "cpdef int _get()" ∧
      ("cpdef int _get()" : String) ≠ "cpdef int get()" := by
  decide

/-- C10: the function block is partial at its public interface: a line for a
record is produced exactly when the display name stripped of the library
token is nonempty; when the stripping empties the name (a name equal to the
token itself), indexing body[0] fails instead of emitting a line. -/
theorem fun_line_partial :
    (∀ (lib : String) (f : Option String × String),
        funLine lib f = none ↔ pyReplace f.2 lib = "")
    ∧ funLine "libx" ((some "int" : Option String), "libx") = none := by
  refine ⟨?_, by decide⟩
  intro lib f
  constructor
  · intro h
    by_contra hne
    rw [funLine_of_ne lib f hne] at h
    cases h
  · intro h
    unfold funLine
    rw [h]

/-! ### The parameter type resolver -/

/-- The unwrap loop exits as soon as the working spelling is none of the
three sentinel tags, whatever the fuel. -/
theorem resolveLoop_enter (fuel : Nat) (dtype : String) (tp : CType) (cnt : Nat)
    (h : dtype ∉ extraTags) : resolveLoop fuel dtype tp cnt = some (dtype, cnt) := by
  cases fuel <;> simp [resolveLoop, h]

/-- One pointer iteration: unwrap to the pointee and count a star. -/
theorem resolveLoop_pointer (fuel : Nat) (tp : CType) (cnt : Nat) :
    resolveLoop (fuel + 1) "pointer" tp cnt
      = resolveLoop fuel (pyLower (kindSp (pointeeOf tp))) (pointeeOf tp) (cnt + 1) := by
  have hmem : ("pointer" : String) ∈ extraTags := by decide
  have hne : ¬ (("pointer" : String) = "enum") := by decide
  simp [resolveLoop, hmem, hne]

/-- One enum iteration: the working spelling becomes the enum's own
spelling. -/
theorem resolveLoop_enum (fuel : Nat) (tp : CType) (cnt : Nat) :
    resolveLoop (fuel + 1) "enum" tp cnt = resolveLoop fuel (ctSpelling tp) tp cnt := by
  have hmem : ("enum" : String) ∈ extraTags := by decide
  simp [resolveLoop, hmem]

/-- One typedef iteration: the working spelling becomes the typedef's
declared name. -/
theorem resolveLoop_typedef (fuel : Nat) (tp : CType) (cnt : Nat) :
    resolveLoop (fuel + 1) "typedef" tp cnt = resolveLoop fuel (tdName tp) tp cnt := by
  have hmem : ("typedef" : String) ∈ extraTags := by decide
  have hne : ¬ (("typedef" : String) = "enum") := by decide
  have hnp : ¬ (("typedef" : String) = "pointer") := by decide
  simp [resolveLoop, hmem, hne, hnp]

/-- The unwrap loop computes the structural base type and counts one star
per pointer layer; fuel one more than the pointer depth always suffices when
the reached base spelling is not itself a sentinel tag. -/
theorem resolveLoop_chain :
    ∀ (t : CType) (cnt : Nat), chainBase t ∉ extraTags →
      resolveLoop (ptrDepth t + 1) (pyLower (kindSp t)) t cnt
        = some (chainBase t, cnt + ptrDepth t) := by
  intro t
  induction t with
  | prim s =>
    intro cnt hb
    simp only [chainBase] at hb
    have h1 : pyLower (kindSp (CType.prim s)) = pyLower s := rfl
    rw [h1, resolveLoop_enter _ _ _ _ hb]
    rfl
  | pointer p ih =>
    intro cnt hb
    simp only [chainBase] at hb
    have h1 : pyLower (kindSp (CType.pointer p)) = "pointer" := rfl
    have h2 : ptrDepth (CType.pointer p) = ptrDepth p + 1 := rfl
    rw [h1, h2, resolveLoop_pointer]
    have h3 : pointeeOf (CType.pointer p) = p := rfl
    rw [h3, ih (cnt + 1) hb]
    have h4 : chainBase (CType.pointer p) = chainBase p := rfl
    have h5 : cnt + 1 + ptrDepth p = cnt + (ptrDepth p + 1) := by omega
    rw [h4, h5]
  | enumT s =>
    intro cnt hb
    simp only [chainBase] at hb
    have h1 : pyLower (kindSp (CType.enumT s)) = "enum" := rfl
    have h2 : ptrDepth (CType.enumT s) = 0 := rfl
    rw [h1, h2, resolveLoop_enum]
    have h3 : ctSpelling (CType.enumT s) = s := rfl
    rw [h3, resolveLoop_enter _ _ _ _ hb]
    rfl
  | typedefT n =>
    intro cnt hb
    simp only [chainBase] at hb
    have h1 : pyLower (kindSp (CType.typedefT n)) = "typedef" := rfl
    have h2 : ptrDepth (CType.typedefT n) = 0 := rfl
    rw [h1, h2, resolveLoop_typedef]
    have h3 : tdName (CType.typedefT n) = n := rfl
    rw [h3, resolveLoop_enter _ _ _ _ hb]
    rfl

/-- C5: for every parameter type, the resolver (dump.py 62-79) unwraps
pointer, enum and typedef layers until the spelling is none of the three
tags, and the descriptor is the reached base type followed by one star per
pointer level unwrapped, paired with the parameter's display name; a
parameter declared int* resolves to base int, depth one, descriptor
int*. -/
theorem param_resolver_unwrap :
    (∀ (t : CType) (dispName : String), chainBase t ∉ extraTags → chainBase t ≠ "" →
        resolveArg (ptrDepth t + 1) t dispName =
          some (chainBase t ++ String.mk (List.replicate (ptrDepth t) '*'), dispName))
    ∧ resolveArg 2 (CType.pointer (CType.prim "Int")) "x" = some ("int*", "x") := by
  refine ⟨?_, by decide⟩
  intro t dispName hb hne
  unfold resolveArg
  rw [resolveLoop_chain t 0 hb]
  simp [hne]

/-- Witness for C5 at the primitive parameter type Float. -/
theorem param_resolver_unwrap_wit :
    resolveArg 1 (CType.prim "Float") "y" = some ("float", "y") := by
  have h := param_resolver_unwrap.1 (CType.prim "Float") "y" (by decide) (by decide)
  exact h.trans (by decide)

/-! ### The argument guard of main -/

/-- C8: invoked with fewer than the two required positional arguments
(len(sys.argv) < 3, dump.py 229), main prints the usage line and stops at
once: the dispatch is the usage action and never the processing action, so
no parsing, extraction or emission happens. -/
theorem usage_guard (argv : List String) (h : argv.length < 3) :
    mainDispatch argv = MainAction.usage ("usage: " ++ argvHead argv ++ " LIBNAME HEADER") ∧
      ∀ lib header, mainDispatch argv ≠ MainAction.proceed lib header := by
  refine ⟨by simp [mainDispatch, h], ?_⟩
  intro lib header
  simp [mainDispatch, h]

/-- Witness for C8 at argv of length one. -/
theorem usage_guard_wit :
    mainDispatch ["dump.py"] = MainAction.usage "usage: dump.py LIBNAME HEADER" := by
  have h := (usage_guard ["dump.py"] (by decide)).1
  exact h.trans (by decide)
